import Mathlib

/-!
Verification of the ASA staking contract
(`smart_contracts/staking/contract.algo.ts`, accumulator variant, plus the
legacy APR variant) against its natural-language specification.

The contract runs on the Algorand VM, where every `uint64` operation that
overflows, underflows or divides by zero aborts the whole transaction.  The
embedding therefore models each arithmetic step with a checked operation
returning `Except ContractError Nat`, and each ABI method as a function from
a pre-state (plus the transaction context: sender, current time, companion
transfer) to `Except ContractError ContractState`.  A method that returns
`.error e` models an aborted transaction: no state is committed.
-/

/-- `2 ^ 64`, the exclusive bound of the AVM's `uint64` values. -/
def u64Bound : Nat := 2 ^ 64

/-- Errors: one constructor per `assert` message of the contract, plus
`arithError` for the AVM's implicit overflow/underflow/div-by-zero aborts. -/
inductive ContractError where
  | arithError
  | alreadyInitialized
  | onlyCreator
  | onlyCreatorOrAdmin
  | notInitialized
  | badGroupSize
  | notAssetTransfer
  | wrongReceiver
  | zeroStakeAmount
  | wrongAsset
  | belowMinimumStake
  | noStake
  | exceedsStake
  | nonPositiveWithdraw
  | belowMinimumRemaining
  | onlyAdmin
  | zeroRewardAmount
  | insufficientPool
  | onlyOwnerOrAdmin
  | activeStake
  | noRewardsToClaim
  deriving DecidableEq, Repr

/-- Checked `uint64` addition: aborts on overflow. -/
def addU (a b : Nat) : Except ContractError Nat :=
  if a + b < u64Bound then .ok (a + b) else .error .arithError

/-- Checked `uint64` subtraction: aborts on underflow. -/
def subU (a b : Nat) : Except ContractError Nat :=
  if b ≤ a then .ok (a - b) else .error .arithError

/-- Checked `uint64` multiplication: aborts on overflow. -/
def mulU (a b : Nat) : Except ContractError Nat :=
  if a * b < u64Bound then .ok (a * b) else .error .arithError

/-- Checked `uint64` division: aborts on a zero divisor (AVM `/` panics),
otherwise truncating. -/
def divU (a b : Nat) : Except ContractError Nat :=
  if b = 0 then .error .arithError else .ok (a / b)

/-- `UserStakeInfo` of the contract: the per-account box contents.
Accounts are modelled as `Nat` (0 models the zero address / `Account()`). -/
structure UserStakeInfo where
  stakedAmount : Nat
  firstStakeTime : Nat
  lastStakeTime : Nat
  totalRewardsEarned : Nat
  rewardDebt : Nat
  deriving DecidableEq, Repr

/-- The global state of `ASAStakingContract`: its nine `GlobalState` slots and
the `stakers` box map, modelled as an association list from account to box
contents.  Asset ids are `Nat`, with 0 modelling the empty `Asset()`. -/
structure ContractState where
  asset : Nat
  adminAddress : Nat
  totalStaked : Nat
  lastRewardTime : Nat
  minimumStake : Nat
  rewardPool : Nat
  accumulatedRewardsPerShare : Nat
  weeklyRewards : Nat
  rewardPeriod : Nat
  stakers : List (Nat × UserStakeInfo)
  deriving DecidableEq, Repr

/-- A companion asset-transfer transaction in the same group, as `stake` and
`addRewards` inspect it: its type, receiver, amount and asset. -/
structure XferTxn where
  isAssetTransfer : Bool
  assetReceiver : Nat
  assetAmount : Nat
  xferAsset : Nat
  deriving DecidableEq, Repr

/-- First box with the given key, if any (`this.stakers(userAddress)`). -/
def lookupStaker : List (Nat × UserStakeInfo) → Nat → Option UserStakeInfo
  | [], _ => none
  | (k, v) :: t, u => if k = u then some v else lookupStaker t u

/-- Write a box: replace the entry in place, or create it. -/
def setStaker : List (Nat × UserStakeInfo) → Nat → UserStakeInfo → List (Nat × UserStakeInfo)
  | [], u, v => [(u, v)]
  | (k, w) :: t, u, v => if k = u then (u, v) :: t else (k, w) :: setStaker t u v

/-- Delete a box (`userBox.delete()`); a missing box is left alone. -/
def eraseStaker : List (Nat × UserStakeInfo) → Nat → List (Nat × UserStakeInfo)
  | [], _ => []
  | (k, w) :: t, u => if k = u then t else (k, w) :: eraseStaker t u

/-- Sum of `stakedAmount` over all stored boxes. -/
def sumStakes (l : List (Nat × UserStakeInfo)) : Nat :=
  (l.map (fun p => p.2.stakedAmount)).sum

/-- The `stakedAmount` of the box with key `u`, 0 when absent. -/
def stakeOfList (l : List (Nat × UserStakeInfo)) (u : Nat) : Nat :=
  match lookupStaker l u with
  | some i => i.stakedAmount
  | none => 0

/-- `getUserStakeInfo` (lines 69-83): the stored box, or the all-zero record
when absent.  The method is `public` and undecorated, so besides serving as
an internal helper it is ABI-routable; a direct call reads a box and commits
no state change. -/
def getUserStakeInfo (s : ContractState) (userAddress : Nat) : UserStakeInfo :=
  match lookupStaker s.stakers userAddress with
  | some i => i
  | none => ⟨0, 0, 0, 0, 0⟩

/-- `storeUserStakeInfo` (lines 88-90): write a box.  Although its doc
comment calls it a helper (and its siblings `updateRewards` and
`calculatePendingRewards` are `private`), this method is `public` and
undecorated, so it is ABI-routable: any caller can write an arbitrary
`UserStakeInfo` into any account's box, with no authorization check and no
adjustment of `totalStaked`. -/
def storeUserStakeInfo (s : ContractState) (userAddress : Nat) (i : UserStakeInfo) :
    ContractState :=
  { s with stakers := setStaker s.stakers userAddress i }

/-- `updateRewards` (contract.algo.ts lines 95-121): advance the accumulator
when at least one full reward period elapsed and something is staked.  The
guard itself computes `lastReward + rewardPeriod` as a `uint64` sum, so an
overflowing sum aborts; inside the branch every operation is checked, notably
the unguarded `rewardPool -= totalRewards`, which aborts on underflow. -/
def updateRewards (s : ContractState) (now : Nat) : Except ContractError ContractState :=
  match addU s.lastRewardTime s.rewardPeriod with
  | .error e => .error e
  | .ok threshold =>
    if threshold ≤ now ∧ 0 < s.totalStaked then
      match subU now s.lastRewardTime with
      | .error e => .error e
      | .ok elapsed =>
        match divU elapsed s.rewardPeriod with
        | .error e => .error e
        | .ok periodsPassed =>
          match mulU s.weeklyRewards periodsPassed with
          | .error e => .error e
          | .ok totalRewards =>
            match divU totalRewards s.totalStaked with
            | .error e => .error e
            | .ok rewardPerShare =>
              match addU s.accumulatedRewardsPerShare rewardPerShare with
              | .error e => .error e
              | .ok newAcc =>
                match mulU periodsPassed s.rewardPeriod with
                | .error e => .error e
                | .ok wholePeriods =>
                  match addU s.lastRewardTime wholePeriods with
                  | .error e => .error e
                  | .ok newLast =>
                    match subU s.rewardPool totalRewards with
                    | .error e => .error e
                    | .ok newPool =>
                      .ok { s with
                        accumulatedRewardsPerShare := newAcc,
                        lastRewardTime := newLast,
                        rewardPool := newPool }
    else .ok s

/-- `calculatePendingRewards` (lines 126-142): 0 for an empty stake, else
`stakedAmount * accumulatedRewardsPerShare` minus the reward debt, clamped
at 0. -/
def calculatePendingRewards (s : ContractState) (userAddress : Nat) :
    Except ContractError Nat :=
  let stakeInfo := getUserStakeInfo s userAddress
  if stakeInfo.stakedAmount = 0 then .ok 0
  else
    match mulU stakeInfo.stakedAmount s.accumulatedRewardsPerShare with
    | .error e => .error e
    | .ok totalEarned =>
      .ok (if stakeInfo.rewardDebt < totalEarned then totalEarned - stakeInfo.rewardDebt else 0)

/-- `initialize` (lines 147-173; named `initContract` here because
`initialize` is a Lean keyword): only before an asset is set, only by the
creator; resets every global slot and stamps `lastRewardTime := now`.  The
box map is untouched. -/
def initContract (s : ContractState) (sender creator now : Nat)
    (asset adminAddress minimumStake weeklyRewards rewardPeriod : Nat) :
    Except ContractError ContractState :=
  if s.asset ≠ 0 then .error .alreadyInitialized
  else if sender ≠ creator then .error .onlyCreator
  else .ok { s with
    asset := asset,
    adminAddress := adminAddress,
    totalStaked := 0,
    lastRewardTime := now,
    minimumStake := minimumStake,
    rewardPool := 0,
    accumulatedRewardsPerShare := 0,
    weeklyRewards := weeklyRewards,
    rewardPeriod := rewardPeriod }

/-- `optInToAsset` (lines 179-193): creator or admin only; the inner opt-in
transfer leaves the modelled state unchanged. -/
def optInToAsset (s : ContractState) (sender creator : Nat) :
    Except ContractError ContractState :=
  if sender ≠ creator ∧ sender ≠ s.adminAddress then .error .onlyCreatorOrAdmin
  else .ok s

/-- `stake` (lines 200-243): validates the companion transfer, enforces the
minimum on a fresh (zero) stake and stamps `firstStakeTime`, then adds the
amount to the caller's box and to `totalStaked` and re-checkpoints
`rewardDebt := stakedAmount * accumulatedRewardsPerShare`.  Note that it
never calls `updateRewards`. -/
def stake (s : ContractState) (sender now appAddr groupSize : Nat) (x : XferTxn) :
    Except ContractError ContractState :=
  if s.asset = 0 then .error .notInitialized
  else if groupSize ≠ 2 then .error .badGroupSize
  else if x.isAssetTransfer = false then .error .notAssetTransfer
  else if x.assetReceiver ≠ appAddr then .error .wrongReceiver
  else if x.assetAmount = 0 then .error .zeroStakeAmount
  else if x.xferAsset ≠ s.asset then .error .wrongAsset
  else
    let info := getUserStakeInfo s sender
    if info.stakedAmount = 0 ∧ x.assetAmount < s.minimumStake then
      .error .belowMinimumStake
    else
      let info1 := if info.stakedAmount = 0 then { info with firstStakeTime := now } else info
      match addU info1.stakedAmount x.assetAmount with
      | .error e => .error e
      | .ok newStaked =>
        match mulU newStaked s.accumulatedRewardsPerShare with
        | .error e => .error e
        | .ok newDebt =>
          match addU s.totalStaked x.assetAmount with
          | .error e => .error e
          | .ok newTotal =>
            let s1 := storeUserStakeInfo s sender
              { info1 with stakedAmount := newStaked, lastStakeTime := now, rewardDebt := newDebt }
            .ok { s1 with totalStaked := newTotal }

/-- `withdraw` (lines 250-289): requires an existing positive stake, an
amount within it and positive, and — on a partial withdrawal — a remainder
at or above the minimum; then subtracts from the caller's box and
`totalStaked` and re-checkpoints `rewardDebt`.  It also never calls
`updateRewards`. -/
def withdraw (s : ContractState) (sender amount : Nat) :
    Except ContractError ContractState :=
  let info := getUserStakeInfo s sender
  if info.stakedAmount = 0 then .error .noStake
  else if info.stakedAmount < amount then .error .exceedsStake
  else if amount = 0 then .error .nonPositiveWithdraw
  else if amount < info.stakedAmount ∧ info.stakedAmount - amount < s.minimumStake then
    .error .belowMinimumRemaining
  else
    match subU info.stakedAmount amount with
    | .error e => .error e
    | .ok newStaked =>
      match mulU newStaked s.accumulatedRewardsPerShare with
      | .error e => .error e
      | .ok newDebt =>
        match subU s.totalStaked amount with
        | .error e => .error e
        | .ok newTotal =>
          let s1 := storeUserStakeInfo s sender
            { info with stakedAmount := newStaked, rewardDebt := newDebt }
          .ok { s1 with totalStaked := newTotal }

/-- `addRewards` (lines 297-315): admin only, with a positive companion
transfer of the staked asset; adds the amount to the pool. -/
def addRewards (s : ContractState) (sender appAddr groupSize : Nat) (x : XferTxn) :
    Except ContractError ContractState :=
  if sender ≠ s.adminAddress then .error .onlyAdmin
  else if groupSize ≠ 2 then .error .badGroupSize
  else if x.isAssetTransfer = false then .error .notAssetTransfer
  else if x.assetReceiver ≠ appAddr then .error .wrongReceiver
  else if x.assetAmount = 0 then .error .zeroRewardAmount
  else if x.xferAsset ≠ s.asset then .error .wrongAsset
  else
    match addU s.rewardPool x.assetAmount with
    | .error e => .error e
    | .ok newPool => .ok { s with rewardPool := newPool }

/-- `getCurrentAPY` (lines 321-335): 0 with nothing staked, else
`52 * weeklyRewards * 100 / totalStaked` under checked multiplication and
truncating division. -/
def getCurrentAPY (s : ContractState) : Except ContractError Nat :=
  if s.totalStaked = 0 then .ok 0
  else
    match mulU 52 s.weeklyRewards with
    | .error e => .error e
    | .ok annualRewards =>
      match mulU annualRewards 100 with
      | .error e => .error e
      | .ok scaled =>
        match divU scaled s.totalStaked with
        | .error e => .error e
        | .ok apy => .ok apy

/-- `triggerRewardDistribution` (lines 350-357): admin-gated `updateRewards`. -/
def triggerRewardDistribution (s : ContractState) (sender now : Nat) :
    Except ContractError ContractState :=
  if sender ≠ s.adminAddress then .error .onlyAdmin
  else updateRewards s now

/-- `updateAdmin` (lines 364-371). -/
def updateAdmin (s : ContractState) (sender newAdminAddress : Nat) :
    Except ContractError ContractState :=
  if sender ≠ s.adminAddress then .error .onlyAdmin
  else .ok { s with adminAddress := newAdminAddress }

/-- `emergencyWithdrawRewards` (lines 418-439): admin only, guarded against
pool underflow (the one pool subtraction the code does guard). -/
def emergencyWithdrawRewards (s : ContractState) (sender amount : Nat) :
    Except ContractError ContractState :=
  if sender ≠ s.adminAddress then .error .onlyAdmin
  else if s.rewardPool < amount then .error .insufficientPool
  else .ok { s with rewardPool := s.rewardPool - amount }

/-- `deleteUserBox` (lines 446-462): owner or admin, only on a zero stake. -/
def deleteUserBox (s : ContractState) (sender userAddress : Nat) :
    Except ContractError ContractState :=
  if sender ≠ userAddress ∧ sender ≠ s.adminAddress then .error .onlyOwnerOrAdmin
  else if (getUserStakeInfo s userAddress).stakedAmount ≠ 0 then .error .activeStake
  else .ok { s with stakers := eraseStaker s.stakers userAddress }

/-- `updateWeeklyRewards` (lines 468-478): admin only; runs `updateRewards`
before changing the rate. -/
def updateWeeklyRewards (s : ContractState) (sender now newWeeklyRewards : Nat) :
    Except ContractError ContractState :=
  if sender ≠ s.adminAddress then .error .onlyAdmin
  else
    match updateRewards s now with
    | .error e => .error e
    | .ok s1 => .ok { s1 with weeklyRewards := newWeeklyRewards }

/-- `updateRewardPeriod` (lines 484-494): admin only; runs `updateRewards`
before changing the period. -/
def updateRewardPeriod (s : ContractState) (sender now newRewardPeriod : Nat) :
    Except ContractError ContractState :=
  if sender ≠ s.adminAddress then .error .onlyAdmin
  else
    match updateRewards s now with
    | .error e => .error e
    | .ok s1 => .ok { s1 with rewardPeriod := newRewardPeriod }

/-- One successful public operation at time `now` (the substrate's clock
reading): every routable method that can be invoked on the contract.  In
Algorand TypeScript every `public` method is ABI-routable — `@abimethod`
only customises routing — so this includes not only the decorated methods
but also the undecorated public box helpers: `storeUserStakeInfo` (which
mutates an arbitrary box) and `getUserStakeInfo` (read-only, commits no
change).  Each mutating method is taken from its `Except`-valued model,
`.ok` results only — an aborted transaction commits nothing. -/
inductive StepAt : Nat → ContractState → ContractState → Prop where
  | step_getBox {now : Nat} {s s' : ContractState} (sender userAddress : Nat)
      (h : s' = s) : StepAt now s s'
  | step_storeBox {now : Nat} {s s' : ContractState} (sender userAddress : Nat)
      (i : UserStakeInfo) (h : s' = storeUserStakeInfo s userAddress i) : StepAt now s s'
  | step_init {now : Nat} {s s' : ContractState}
      (sender creator asset adminAddress minimumStake weeklyRewards rewardPeriod : Nat)
      (h : initContract s sender creator now asset adminAddress minimumStake
        weeklyRewards rewardPeriod = .ok s') : StepAt now s s'
  | step_optIn {now : Nat} {s s' : ContractState} (sender creator : Nat)
      (h : optInToAsset s sender creator = .ok s') : StepAt now s s'
  | step_stake {now : Nat} {s s' : ContractState} (sender appAddr groupSize : Nat) (x : XferTxn)
      (h : stake s sender now appAddr groupSize x = .ok s') : StepAt now s s'
  | step_withdraw {now : Nat} {s s' : ContractState} (sender amount : Nat)
      (h : withdraw s sender amount = .ok s') : StepAt now s s'
  | step_addRewards {now : Nat} {s s' : ContractState} (sender appAddr groupSize : Nat)
      (x : XferTxn) (h : addRewards s sender appAddr groupSize x = .ok s') : StepAt now s s'
  | step_trigger {now : Nat} {s s' : ContractState} (sender : Nat)
      (h : triggerRewardDistribution s sender now = .ok s') : StepAt now s s'
  | step_updateAdmin {now : Nat} {s s' : ContractState} (sender newAdminAddress : Nat)
      (h : updateAdmin s sender newAdminAddress = .ok s') : StepAt now s s'
  | step_emergency {now : Nat} {s s' : ContractState} (sender amount : Nat)
      (h : emergencyWithdrawRewards s sender amount = .ok s') : StepAt now s s'
  | step_deleteBox {now : Nat} {s s' : ContractState} (sender userAddress : Nat)
      (h : deleteUserBox s sender userAddress = .ok s') : StepAt now s s'
  | step_updateWeekly {now : Nat} {s s' : ContractState} (sender newWeeklyRewards : Nat)
      (h : updateWeeklyRewards s sender now newWeeklyRewards = .ok s') : StepAt now s s'
  | step_updatePeriod {now : Nat} {s s' : ContractState} (sender newRewardPeriod : Nat)
      (h : updateRewardPeriod s sender now newRewardPeriod = .ok s') : StepAt now s s'

/-- The state of a freshly created application: every `GlobalState` slot at
its declared `initialValue` (0 / the zero address / the empty asset) and an
empty box map. -/
def initialState : ContractState :=
  { asset := 0, adminAddress := 0, totalStaked := 0, lastRewardTime := 0,
    minimumStake := 0, rewardPool := 0, accumulatedRewardsPerShare := 0,
    weeklyRewards := 0, rewardPeriod := 0, stakers := [] }

/-- States reachable from contract creation by successful operations. -/
inductive Reachable : ContractState → Prop where
  | init : Reachable initialState
  | step {s s' : ContractState} {now : Nat} :
      Reachable s → StepAt now s s' → Reachable s'

/-- A stake transfer of 50 units of asset 1 to the application address 4. -/
def xferStake50 : XferTxn := ⟨true, 4, 50, 1⟩

/-- A reward-funding transfer of 100000 units of asset 1 to address 4. -/
def xferFund : XferTxn := ⟨true, 4, 100000, 1⟩

/-- State after `initContract` by creator 7 at time 0: asset 1, admin 2,
minimum stake 10, weekly rewards 1000, reward period 100. -/
def stateA : ContractState :=
  { asset := 1, adminAddress := 2, totalStaked := 0, lastRewardTime := 0,
    minimumStake := 10, rewardPool := 0, accumulatedRewardsPerShare := 0,
    weeklyRewards := 1000, rewardPeriod := 100, stakers := [] }

/-- State after account 5 stakes 50 at time 0 in `stateA`. -/
def stateB : ContractState :=
  { stateA with totalStaked := 50, stakers := [(5, ⟨50, 0, 0, 0, 0⟩)] }

/-- State after the admin funds the pool with 100000 in `stateB`. -/
def stateC : ContractState :=
  { stateB with rewardPool := 100000 }

/-- State after the admin triggers distribution at time 100 in `stateC`:
one period of 100 elapsed, emitted 1000, per-share delta 1000 / 50 = 20. -/
def stateCupd : ContractState :=
  { stateC with
    accumulatedRewardsPerShare := 20
    lastRewardTime := 100
    rewardPool := 99000 }

/-- State after account 5 stakes another 50 at time 100 in `stateC`. -/
def stateD : ContractState :=
  { stateC with
    totalStaked := 100
    stakers := [(5, ⟨100, 0, 100, 0, 0⟩)] }

/-- State after account 5 withdraws 25 in `stateC`. -/
def stateW : ContractState :=
  { stateC with totalStaked := 25, stakers := [(5, ⟨25, 0, 0, 0, 0⟩)] }

/-- Componentwise decidable equality for `Except` results. -/
instance {ε α : Type} [DecidableEq ε] [DecidableEq α] : DecidableEq (Except ε α) := fun a b =>
  match a, b with
  | .ok x, .ok y =>
    if h : x = y then .isTrue (by rw [h]) else .isFalse (fun c => h (Except.ok.inj c))
  | .error x, .error y =>
    if h : x = y then .isTrue (by rw [h]) else .isFalse (fun c => h (Except.error.inj c))
  | .ok _, .error _ => .isFalse (fun c => Except.noConfusion c)
  | .error _, .ok _ => .isFalse (fun c => Except.noConfusion c)

theorem reachable_stateA : Reachable stateA :=
  .step .init (@StepAt.step_init 0 initialState stateA 7 7 1 2 10 1000 100 (by decide))

theorem reachable_stateB : Reachable stateB :=
  .step reachable_stateA (@StepAt.step_stake 0 stateA stateB 5 4 2 xferStake50 (by decide))

theorem reachable_stateC : Reachable stateC :=
  .step reachable_stateB (@StepAt.step_addRewards 0 stateB stateC 2 4 2 xferFund (by decide))

theorem reachable_stateCupd : Reachable stateCupd :=
  .step reachable_stateC (@StepAt.step_trigger 100 stateC stateCupd 2 (by decide))

/-- A stake transfer of 1 unit of asset 1 to the application address 4. -/
def xferStake1 : XferTxn := ⟨true, 4, 1, 1⟩

/-- `stateA` after any caller invokes the routable public
`storeUserStakeInfo(9, ⟨7, 0, 0, 0, 0⟩)`: a record of 7 exists while
`totalStaked` is still 0. -/
def stateV : ContractState :=
  { stateA with stakers := [(9, ⟨7, 0, 0, 0, 0⟩)] }

/-- `stateA` after `storeUserStakeInfo(9, ⟨5, 0, 0, 0, 0⟩)`: a record of 5,
below the minimum stake of 10. -/
def stateM : ContractState :=
  { stateA with stakers := [(9, ⟨5, 0, 0, 0, 0⟩)] }

/-- `stateM` after account 9 tops its planted record up with a stake of 1:
the record (0 < 6 < 10) is still below the minimum, because `stake` checks
the minimum only for a zero record. -/
def stateM2 : ContractState :=
  { stateA with
    totalStaked := 1
    stakers := [(9, ⟨6, 0, 0, 0, 0⟩)] }

/-- `stateB` (a genuine staker 5 of 50 = totalStaked) after
`storeUserStakeInfo(9, ⟨50, 0, 0, 0, 0⟩)` plants a second record of 50. -/
def stateT : ContractState :=
  { stateB with stakers := [(5, ⟨50, 0, 0, 0, 0⟩), (9, ⟨50, 0, 0, 0, 0⟩)] }

/-- `stateT` after account 9 withdraws its planted 50: `totalStaked` is 0
while the genuine staker's 50 is still recorded. -/
def stateT2 : ContractState :=
  { stateT with
    totalStaked := 0
    stakers := [(5, ⟨50, 0, 0, 0, 0⟩), (9, ⟨0, 0, 0, 0, 0⟩)] }

theorem reachable_stateV : Reachable stateV :=
  .step reachable_stateA (@StepAt.step_storeBox 0 stateA stateV 9 9 ⟨7, 0, 0, 0, 0⟩ (by decide))

theorem reachable_stateM : Reachable stateM :=
  .step reachable_stateA (@StepAt.step_storeBox 0 stateA stateM 9 9 ⟨5, 0, 0, 0, 0⟩ (by decide))

theorem reachable_stateT : Reachable stateT :=
  .step reachable_stateB (@StepAt.step_storeBox 0 stateB stateT 9 9 ⟨50, 0, 0, 0, 0⟩ (by decide))

theorem sumStakes_cons (p : Nat × UserStakeInfo) (t : List (Nat × UserStakeInfo)) :
    sumStakes (p :: t) = p.2.stakedAmount + sumStakes t := by
  simp [sumStakes]

theorem stakeOfList_cons (k : Nat) (w : UserStakeInfo) (t : List (Nat × UserStakeInfo))
    (u : Nat) :
    stakeOfList ((k, w) :: t) u = if k = u then w.stakedAmount else stakeOfList t u := by
  by_cases h : k = u <;> simp [stakeOfList, lookupStaker, h]

theorem lookup_set_self (l : List (Nat × UserStakeInfo)) (u : Nat) (v : UserStakeInfo) :
    lookupStaker (setStaker l u v) u = some v := by
  induction l with
  | nil => simp [setStaker, lookupStaker]
  | cons p t ih =>
    obtain ⟨k, w⟩ := p
    by_cases h : k = u
    · subst h; simp [setStaker, lookupStaker]
    · simp [setStaker, lookupStaker, h, ih]

theorem sum_set (l : List (Nat × UserStakeInfo)) (u : Nat) (v : UserStakeInfo) :
    sumStakes (setStaker l u v) + stakeOfList l u = sumStakes l + v.stakedAmount := by
  induction l with
  | nil => simp [setStaker, sumStakes, stakeOfList, lookupStaker]
  | cons p t ih =>
    obtain ⟨k, w⟩ := p
    by_cases h : k = u
    · subst h
      simp [setStaker, sumStakes_cons, stakeOfList_cons]
      omega
    · simp only [setStaker, if_neg h, sumStakes_cons, stakeOfList_cons]
      omega

theorem sum_erase (l : List (Nat × UserStakeInfo)) (u : Nat) :
    sumStakes (eraseStaker l u) + stakeOfList l u = sumStakes l := by
  induction l with
  | nil => simp [eraseStaker, sumStakes, stakeOfList, lookupStaker]
  | cons p t ih =>
    obtain ⟨k, w⟩ := p
    by_cases h : k = u
    · subst h
      simp [eraseStaker, sumStakes_cons, stakeOfList_cons]
      omega
    · simp only [eraseStaker, if_neg h, sumStakes_cons, stakeOfList_cons]
      omega

theorem addU_ok {a b : Nat} (h : a + b < u64Bound) : addU a b = .ok (a + b) := by
  simp [addU, h]

theorem subU_ok {a b : Nat} (h : b ≤ a) : subU a b = .ok (a - b) := by
  simp [subU, h]

theorem mulU_ok {a b : Nat} (h : a * b < u64Bound) : mulU a b = .ok (a * b) := by
  simp [mulU, h]

theorem divU_ok {a b : Nat} (h : b ≠ 0) : divU a b = .ok (a / b) := by
  simp [divU, h]

theorem subU_err {a b : Nat} (h : a < b) : subU a b = .error .arithError := by
  rw [subU, if_neg (by omega)]

/-- No-op case of `updateRewards`: the reward period has not fully elapsed. -/
theorem updateRewards_noop_early (s : ContractState) (now : Nat)
    (hfit : s.lastRewardTime + s.rewardPeriod < u64Bound)
    (hnow : now < s.lastRewardTime + s.rewardPeriod) :
    updateRewards s now = .ok s := by
  simp only [updateRewards, addU_ok hfit]
  rw [if_neg]
  intro hc
  exact absurd hc.1 (by omega)

/-- No-op case of `updateRewards`: nothing is staked. -/
theorem updateRewards_noop_zero (s : ContractState) (now : Nat)
    (hfit : s.lastRewardTime + s.rewardPeriod < u64Bound)
    (htot : s.totalStaked = 0) :
    updateRewards s now = .ok s := by
  simp only [updateRewards, addU_ok hfit]
  rw [if_neg]
  intro hc
  exact absurd hc.2 (by omega)

/-- Advance case of `updateRewards`: with a fully elapsed period, a positive
total stake and in-range arithmetic, the accumulator gains
`emitted / totalStaked`, `lastRewardTime` moves by whole periods and the pool
loses `emitted = weeklyRewards * periodsPassed`. -/
theorem updateRewards_advance (s : ContractState) (now : Nat)
    (hfit : s.lastRewardTime + s.rewardPeriod < u64Bound)
    (hnow : s.lastRewardTime + s.rewardPeriod ≤ now)
    (hnow64 : now < u64Bound)
    (htot : 0 < s.totalStaked)
    (hper : 0 < s.rewardPeriod)
    (hemit : s.weeklyRewards * ((now - s.lastRewardTime) / s.rewardPeriod) < u64Bound)
    (hacc : s.accumulatedRewardsPerShare +
      s.weeklyRewards * ((now - s.lastRewardTime) / s.rewardPeriod) / s.totalStaked < u64Bound)
    (hpool : s.weeklyRewards * ((now - s.lastRewardTime) / s.rewardPeriod) ≤ s.rewardPool) :
    updateRewards s now = .ok { s with
      accumulatedRewardsPerShare := s.accumulatedRewardsPerShare +
        s.weeklyRewards * ((now - s.lastRewardTime) / s.rewardPeriod) / s.totalStaked
      lastRewardTime := s.lastRewardTime +
        (now - s.lastRewardTime) / s.rewardPeriod * s.rewardPeriod
      rewardPool := s.rewardPool -
        s.weeklyRewards * ((now - s.lastRewardTime) / s.rewardPeriod) } := by
  have hlast : s.lastRewardTime ≤ now := by omega
  have hdm : (now - s.lastRewardTime) / s.rewardPeriod * s.rewardPeriod ≤
      now - s.lastRewardTime := Nat.div_mul_le_self _ _
  have hmulfit : (now - s.lastRewardTime) / s.rewardPeriod * s.rewardPeriod < u64Bound := by
    omega
  have haddfit : s.lastRewardTime +
      (now - s.lastRewardTime) / s.rewardPeriod * s.rewardPeriod < u64Bound := by
    omega
  simp only [updateRewards, addU_ok hfit]
  rw [if_pos ⟨hnow, htot⟩]
  simp only [subU_ok hlast]
  simp only [divU_ok (Nat.pos_iff_ne_zero.1 hper)]
  simp only [mulU_ok hemit]
  simp only [divU_ok (Nat.pos_iff_ne_zero.1 htot)]
  simp only [addU_ok hacc]
  simp only [mulU_ok hmulfit]
  simp only [addU_ok haddfit]
  simp only [subU_ok hpool]

/-- Frame and monotonicity facts of a successful `updateRewards`: only the
accumulator (upward), `lastRewardTime` (upward) and the pool (downward)
change, and with nothing staked the state is returned untouched. -/
theorem updateRewards_frame (s s' : ContractState) (now : Nat)
    (h : updateRewards s now = .ok s') :
    s'.asset = s.asset ∧ s'.adminAddress = s.adminAddress ∧
    s'.totalStaked = s.totalStaked ∧ s'.minimumStake = s.minimumStake ∧
    s'.weeklyRewards = s.weeklyRewards ∧ s'.rewardPeriod = s.rewardPeriod ∧
    s'.stakers = s.stakers ∧
    s.accumulatedRewardsPerShare ≤ s'.accumulatedRewardsPerShare ∧
    s.lastRewardTime ≤ s'.lastRewardTime ∧
    s'.rewardPool ≤ s.rewardPool ∧
    (s.totalStaked = 0 → s' = s) := by
  unfold updateRewards at h
  cases h1 : addU s.lastRewardTime s.rewardPeriod with
  | error e => simp only [h1] at h; exact Except.noConfusion h
  | ok threshold =>
    simp only [h1] at h
    by_cases h2 : threshold ≤ now ∧ 0 < s.totalStaked
    · rw [if_pos h2] at h
      cases h3 : subU now s.lastRewardTime with
      | error e => simp only [h3] at h; exact Except.noConfusion h
      | ok elapsed =>
        simp only [h3] at h
        cases h4 : divU elapsed s.rewardPeriod with
        | error e => simp only [h4] at h; exact Except.noConfusion h
        | ok periodsPassed =>
          simp only [h4] at h
          cases h5 : mulU s.weeklyRewards periodsPassed with
          | error e => simp only [h5] at h; exact Except.noConfusion h
          | ok totalRewards =>
            simp only [h5] at h
            cases h6 : divU totalRewards s.totalStaked with
            | error e => simp only [h6] at h; exact Except.noConfusion h
            | ok rewardPerShare =>
              simp only [h6] at h
              cases h7 : addU s.accumulatedRewardsPerShare rewardPerShare with
              | error e => simp only [h7] at h; exact Except.noConfusion h
              | ok newAcc =>
                simp only [h7] at h
                cases h8 : mulU periodsPassed s.rewardPeriod with
                | error e => simp only [h8] at h; exact Except.noConfusion h
                | ok wholePeriods =>
                  simp only [h8] at h
                  cases h9 : addU s.lastRewardTime wholePeriods with
                  | error e => simp only [h9] at h; exact Except.noConfusion h
                  | ok newLast =>
                    simp only [h9] at h
                    cases h10 : subU s.rewardPool totalRewards with
                    | error e => simp only [h10] at h; exact Except.noConfusion h
                    | ok newPool =>
                      simp only [h10] at h
                      have hs' := (Except.ok.inj h).symm
                      subst hs'
                      refine ⟨rfl, rfl, rfl, rfl, rfl, rfl, rfl, ?_, ?_, ?_, ?_⟩
                      · have : newAcc = s.accumulatedRewardsPerShare + rewardPerShare := by
                          unfold addU at h7
                          split at h7
                          · exact (Except.ok.inj h7).symm
                          · exact Except.noConfusion h7
                        show s.accumulatedRewardsPerShare ≤ newAcc
                        omega
                      · have : newLast = s.lastRewardTime + wholePeriods := by
                          unfold addU at h9
                          split at h9
                          · exact (Except.ok.inj h9).symm
                          · exact Except.noConfusion h9
                        show s.lastRewardTime ≤ newLast
                        omega
                      · have : newPool = s.rewardPool - totalRewards := by
                          unfold subU at h10
                          split at h10
                          · exact (Except.ok.inj h10).symm
                          · exact Except.noConfusion h10
                        show newPool ≤ s.rewardPool
                        omega
                      · intro hz
                        exact absurd h2.2 (by omega)
    · rw [if_neg h2] at h
      have hs' := (Except.ok.inj h).symm
      subst hs'
      exact ⟨rfl, rfl, rfl, rfl, rfl, rfl, rfl, le_refl _, le_refl _, le_refl _, fun _ => rfl⟩

theorem addU_ok_inv {a b c : Nat} (h : addU a b = .ok c) : c = a + b ∧ a + b < u64Bound := by
  unfold addU at h
  split at h
  · exact ⟨(Except.ok.inj h).symm, by assumption⟩
  · exact Except.noConfusion h

theorem subU_ok_inv {a b c : Nat} (h : subU a b = .ok c) : c = a - b ∧ b ≤ a := by
  unfold subU at h
  split at h
  · exact ⟨(Except.ok.inj h).symm, by assumption⟩
  · exact Except.noConfusion h

theorem mulU_ok_inv {a b c : Nat} (h : mulU a b = .ok c) : c = a * b ∧ a * b < u64Bound := by
  unfold mulU at h
  split at h
  · exact ⟨(Except.ok.inj h).symm, by assumption⟩
  · exact Except.noConfusion h

/-- `stakeOfList` over a state's box list agrees with `getUserStakeInfo`. -/
theorem stakeOf_get (s : ContractState) (u : Nat) :
    stakeOfList s.stakers u = (getUserStakeInfo s u).stakedAmount := by
  unfold stakeOfList getUserStakeInfo
  cases lookupStaker s.stakers u <;> rfl

/-- Inversion of a successful `stake`: the preconditions that must have held
and the exact shape of the post-state. -/
theorem stake_inv (s s' : ContractState) (sender now appAddr groupSize : Nat) (x : XferTxn)
    (h : stake s sender now appAddr groupSize x = .ok s') :
    s.asset ≠ 0 ∧ x.assetAmount ≠ 0 ∧
    ((getUserStakeInfo s sender).stakedAmount = 0 → s.minimumStake ≤ x.assetAmount) ∧
    s'.asset = s.asset ∧ s'.adminAddress = s.adminAddress ∧
    s'.lastRewardTime = s.lastRewardTime ∧ s'.minimumStake = s.minimumStake ∧
    s'.rewardPool = s.rewardPool ∧
    s'.accumulatedRewardsPerShare = s.accumulatedRewardsPerShare ∧
    s'.weeklyRewards = s.weeklyRewards ∧ s'.rewardPeriod = s.rewardPeriod ∧
    s'.totalStaked = s.totalStaked + x.assetAmount ∧
    ∃ i2 : UserStakeInfo,
      s'.stakers = setStaker s.stakers sender i2 ∧
      i2.stakedAmount = (getUserStakeInfo s sender).stakedAmount + x.assetAmount ∧
      i2.rewardDebt = i2.stakedAmount * s.accumulatedRewardsPerShare ∧
      i2.totalRewardsEarned = (getUserStakeInfo s sender).totalRewardsEarned ∧
      i2.stakedAmount * s.accumulatedRewardsPerShare < u64Bound := by
  simp only [stake] at h
  split at h
  · exact Except.noConfusion h
  rename_i hAsset
  split at h
  · exact Except.noConfusion h
  rename_i hGroup
  split at h
  · exact Except.noConfusion h
  rename_i hType
  split at h
  · exact Except.noConfusion h
  rename_i hRecv
  split at h
  · exact Except.noConfusion h
  rename_i hAmt
  split at h
  · exact Except.noConfusion h
  rename_i hXAsset
  split at h
  · exact Except.noConfusion h
  rename_i hMin
  cases hAdd : addU (if (getUserStakeInfo s sender).stakedAmount = 0
      then { getUserStakeInfo s sender with firstStakeTime := now }
      else getUserStakeInfo s sender).stakedAmount x.assetAmount with
  | error e => simp only [hAdd] at h; exact Except.noConfusion h
  | ok newStaked =>
    simp only [hAdd] at h
    cases hMul : mulU newStaked s.accumulatedRewardsPerShare with
    | error e => simp only [hMul] at h; exact Except.noConfusion h
    | ok newDebt =>
      simp only [hMul] at h
      cases hTot : addU s.totalStaked x.assetAmount with
      | error e => simp only [hTot] at h; exact Except.noConfusion h
      | ok newTotal =>
        simp only [hTot] at h
        have hs' := (Except.ok.inj h).symm
        subst hs'
        obtain ⟨rfl, hb1⟩ := addU_ok_inv hAdd
        obtain ⟨rfl, hb2⟩ := mulU_ok_inv hMul
        obtain ⟨rfl, hb3⟩ := addU_ok_inv hTot
        have hsa : (if (getUserStakeInfo s sender).stakedAmount = 0
            then { getUserStakeInfo s sender with firstStakeTime := now }
            else getUserStakeInfo s sender).stakedAmount =
            (getUserStakeInfo s sender).stakedAmount := by
          split <;> rfl
        have hte : (if (getUserStakeInfo s sender).stakedAmount = 0
            then { getUserStakeInfo s sender with firstStakeTime := now }
            else getUserStakeInfo s sender).totalRewardsEarned =
            (getUserStakeInfo s sender).totalRewardsEarned := by
          split <;> rfl
        refine ⟨hAsset, hAmt, ?_, rfl, rfl, rfl, rfl, rfl, rfl, rfl, rfl, rfl, ?_⟩
        · intro hz
          rcases Nat.lt_or_ge x.assetAmount s.minimumStake with hlt | hge
          · exact absurd ⟨hz, hlt⟩ hMin
          · exact hge
        · refine ⟨_, rfl, ?_, rfl, ?_, ?_⟩
          · simp [storeUserStakeInfo, hsa]
          · simp [storeUserStakeInfo, hte]
          · exact hb2

/-- Inversion of a successful `withdraw`: the guards that must have held and
the exact shape of the post-state. -/
theorem withdraw_inv (s s' : ContractState) (sender amount : Nat)
    (h : withdraw s sender amount = .ok s') :
    (getUserStakeInfo s sender).stakedAmount ≠ 0 ∧
    amount ≤ (getUserStakeInfo s sender).stakedAmount ∧
    amount ≠ 0 ∧
    (amount < (getUserStakeInfo s sender).stakedAmount →
      s.minimumStake ≤ (getUserStakeInfo s sender).stakedAmount - amount) ∧
    amount ≤ s.totalStaked ∧
    s'.asset = s.asset ∧ s'.adminAddress = s.adminAddress ∧
    s'.lastRewardTime = s.lastRewardTime ∧ s'.minimumStake = s.minimumStake ∧
    s'.rewardPool = s.rewardPool ∧
    s'.accumulatedRewardsPerShare = s.accumulatedRewardsPerShare ∧
    s'.weeklyRewards = s.weeklyRewards ∧ s'.rewardPeriod = s.rewardPeriod ∧
    s'.totalStaked = s.totalStaked - amount ∧
    ∃ i2 : UserStakeInfo,
      s'.stakers = setStaker s.stakers sender i2 ∧
      i2.stakedAmount = (getUserStakeInfo s sender).stakedAmount - amount ∧
      i2.rewardDebt = i2.stakedAmount * s.accumulatedRewardsPerShare ∧
      i2.totalRewardsEarned = (getUserStakeInfo s sender).totalRewardsEarned ∧
      i2.stakedAmount * s.accumulatedRewardsPerShare < u64Bound := by
  simp only [withdraw] at h
  split at h
  · exact Except.noConfusion h
  rename_i hZero
  split at h
  · exact Except.noConfusion h
  rename_i hOver
  split at h
  · exact Except.noConfusion h
  rename_i hPos
  split at h
  · exact Except.noConfusion h
  rename_i hRem
  cases hSub : subU (getUserStakeInfo s sender).stakedAmount amount with
  | error e => simp only [hSub] at h; exact Except.noConfusion h
  | ok newStaked =>
    simp only [hSub] at h
    cases hMul : mulU newStaked s.accumulatedRewardsPerShare with
    | error e => simp only [hMul] at h; exact Except.noConfusion h
    | ok newDebt =>
      simp only [hMul] at h
      cases hTot : subU s.totalStaked amount with
      | error e => simp only [hTot] at h; exact Except.noConfusion h
      | ok newTotal =>
        simp only [hTot] at h
        have hs' := (Except.ok.inj h).symm
        subst hs'
        obtain ⟨rfl, hb1⟩ := subU_ok_inv hSub
        obtain ⟨rfl, hb2⟩ := mulU_ok_inv hMul
        obtain ⟨rfl, hb3⟩ := subU_ok_inv hTot
        refine ⟨hZero, by omega, hPos, ?_, hb3, rfl, rfl, rfl, rfl, rfl, rfl, rfl, rfl, rfl,
          _, rfl, rfl, rfl, rfl, hb2⟩
        intro hlt
        rcases Nat.lt_or_ge ((getUserStakeInfo s sender).stakedAmount - amount)
          s.minimumStake with h2 | h2
        · exact absurd ⟨hlt, h2⟩ hRem
        · exact h2

/-- Inversion of a successful `initContract`. -/
theorem initContract_inv (s s' : ContractState)
    (sender creator now asset adminAddress minimumStake weeklyRewards rewardPeriod : Nat)
    (h : initContract s sender creator now asset adminAddress minimumStake weeklyRewards
      rewardPeriod = .ok s') :
    s.asset = 0 ∧ sender = creator ∧
    s' = { asset := asset
           adminAddress := adminAddress
           totalStaked := 0
           lastRewardTime := now
           minimumStake := minimumStake
           rewardPool := 0
           accumulatedRewardsPerShare := 0
           weeklyRewards := weeklyRewards
           rewardPeriod := rewardPeriod
           stakers := s.stakers } := by
  simp only [initContract] at h
  split at h
  · exact Except.noConfusion h
  rename_i hA
  split at h
  · exact Except.noConfusion h
  rename_i hC
  refine ⟨by omega, by omega, (Except.ok.inj h).symm⟩

/-- Inversion of a successful `optInToAsset`: the state is unchanged. -/
theorem optIn_inv (s s' : ContractState) (sender creator : Nat)
    (h : optInToAsset s sender creator = .ok s') : s' = s := by
  simp only [optInToAsset] at h
  split at h
  · exact Except.noConfusion h
  exact (Except.ok.inj h).symm

/-- Inversion of a successful `addRewards`. -/
theorem addRewards_inv (s s' : ContractState) (sender appAddr groupSize : Nat) (x : XferTxn)
    (h : addRewards s sender appAddr groupSize x = .ok s') :
    s' = { s with rewardPool := s.rewardPool + x.assetAmount } := by
  simp only [addRewards] at h
  split at h
  · exact Except.noConfusion h
  split at h
  · exact Except.noConfusion h
  split at h
  · exact Except.noConfusion h
  split at h
  · exact Except.noConfusion h
  split at h
  · exact Except.noConfusion h
  split at h
  · exact Except.noConfusion h
  cases hAdd : addU s.rewardPool x.assetAmount with
  | error e => simp only [hAdd] at h; exact Except.noConfusion h
  | ok newPool =>
    simp only [hAdd] at h
    obtain ⟨rfl, _⟩ := addU_ok_inv hAdd
    exact (Except.ok.inj h).symm

/-- Inversion of a successful `triggerRewardDistribution`. -/
theorem trigger_inv (s s' : ContractState) (sender now : Nat)
    (h : triggerRewardDistribution s sender now = .ok s') :
    updateRewards s now = .ok s' := by
  simp only [triggerRewardDistribution] at h
  split at h
  · exact Except.noConfusion h
  exact h

/-- Inversion of a successful `updateAdmin`. -/
theorem updateAdmin_inv (s s' : ContractState) (sender newAdminAddress : Nat)
    (h : updateAdmin s sender newAdminAddress = .ok s') :
    s' = { s with adminAddress := newAdminAddress } := by
  simp only [updateAdmin] at h
  split at h
  · exact Except.noConfusion h
  exact (Except.ok.inj h).symm

/-- Inversion of a successful `emergencyWithdrawRewards`: the pool never
underflows here because the method guards it. -/
theorem emergency_inv (s s' : ContractState) (sender amount : Nat)
    (h : emergencyWithdrawRewards s sender amount = .ok s') :
    amount ≤ s.rewardPool ∧ s' = { s with rewardPool := s.rewardPool - amount } := by
  simp only [emergencyWithdrawRewards] at h
  split at h
  · exact Except.noConfusion h
  split at h
  · exact Except.noConfusion h
  rename_i hPool
  exact ⟨by omega, (Except.ok.inj h).symm⟩

/-- Inversion of a successful `deleteUserBox`: only a zero stake is removed. -/
theorem deleteBox_inv (s s' : ContractState) (sender userAddress : Nat)
    (h : deleteUserBox s sender userAddress = .ok s') :
    (getUserStakeInfo s userAddress).stakedAmount = 0 ∧
    s' = { s with stakers := eraseStaker s.stakers userAddress } := by
  simp only [deleteUserBox] at h
  split at h
  · exact Except.noConfusion h
  split at h
  · exact Except.noConfusion h
  rename_i hZ
  exact ⟨by omega, (Except.ok.inj h).symm⟩

/-- Inversion of a successful `updateWeeklyRewards`. -/
theorem updateWeekly_inv (s s' : ContractState) (sender now newWeeklyRewards : Nat)
    (h : updateWeeklyRewards s sender now newWeeklyRewards = .ok s') :
    ∃ s1, updateRewards s now = .ok s1 ∧ s' = { s1 with weeklyRewards := newWeeklyRewards } := by
  simp only [updateWeeklyRewards] at h
  split at h
  · exact Except.noConfusion h
  cases hU : updateRewards s now with
  | error e => simp only [hU] at h; exact Except.noConfusion h
  | ok s1 =>
    simp only [hU] at h
    exact ⟨s1, rfl, (Except.ok.inj h).symm⟩

/-- Inversion of a successful `updateRewardPeriod`. -/
theorem updatePeriod_inv (s s' : ContractState) (sender now newRewardPeriod : Nat)
    (h : updateRewardPeriod s sender now newRewardPeriod = .ok s') :
    ∃ s1, updateRewards s now = .ok s1 ∧ s' = { s1 with rewardPeriod := newRewardPeriod } := by
  simp only [updateRewardPeriod] at h
  split at h
  · exact Except.noConfusion h
  cases hU : updateRewards s now with
  | error e => simp only [hU] at h; exact Except.noConfusion h
  | ok s1 =>
    simp only [hU] at h
    exact ⟨s1, rfl, (Except.ok.inj h).symm⟩

/-- What the intended mutators get right about conservation: a successful
`stake` adds the staked amount to both `totalStaked` and the stored sum. -/
theorem stake_conservation_delta (s s' : ContractState)
    (sender now appAddr groupSize : Nat) (x : XferTxn)
    (h : stake s sender now appAddr groupSize x = .ok s') :
    s'.totalStaked = s.totalStaked + x.assetAmount ∧
    sumStakes s'.stakers = sumStakes s.stakers + x.assetAmount := by
  obtain ⟨_, _, _, _, _, _, _, _, _, _, _, hTot, i2, hStk, hi2s, _, _, _⟩ :=
    stake_inv s s' sender now appAddr groupSize x h
  have hset := sum_set s.stakers sender i2
  rw [stakeOf_get] at hset
  refine ⟨hTot, ?_⟩
  rw [hStk]
  omega

/-- A successful `withdraw` removes the same amount from `totalStaked` and
from the stored sum. -/
theorem withdraw_conservation_delta (s s' : ContractState) (sender amount : Nat)
    (h : withdraw s sender amount = .ok s') :
    s'.totalStaked + amount = s.totalStaked ∧
    sumStakes s'.stakers + amount = sumStakes s.stakers := by
  obtain ⟨_, hLe, _, _, hLeT, _, _, _, _, _, _, _, _, hTot, i2, hStk, hi2s, _, _, _⟩ :=
    withdraw_inv s s' sender amount h
  have hset := sum_set s.stakers sender i2
  rw [stakeOf_get] at hset
  constructor
  · rw [hTot]
    omega
  · rw [hStk]
    omega

/-- A successful `deleteUserBox` (possible only at a zero stake) changes
neither `totalStaked` nor the stored sum. -/
theorem deleteBox_conservation (s s' : ContractState) (sender userAddress : Nat)
    (h : deleteUserBox s sender userAddress = .ok s') :
    s'.totalStaked = s.totalStaked ∧ sumStakes s'.stakers = sumStakes s.stakers := by
  obtain ⟨hZ, rfl⟩ := deleteBox_inv s s' sender userAddress h
  have her := sum_erase s.stakers userAddress
  rw [stakeOf_get] at her
  refine ⟨rfl, ?_⟩
  show sumStakes (eraseStaker s.stakers userAddress) = _
  omega

/-- Facts that survive every routable operation, the box-write helper
included: while no asset is set, nothing can be staked in total (only
`stake` increases `totalStaked`, and it requires an asset), so the
accumulator cannot have advanced either. -/
def WeakInv (s : ContractState) : Prop :=
  (s.asset = 0 → s.totalStaked = 0) ∧
  (s.asset = 0 → s.accumulatedRewardsPerShare = 0)

theorem initialState_weakInv : WeakInv initialState :=
  ⟨fun _ => rfl, fun _ => rfl⟩

/-- Each successful operation — `storeUserStakeInfo` included — preserves
`WeakInv`. -/
theorem weakInv_step (s s' : ContractState) (now : Nat) (hI : WeakInv s)
    (hstep : StepAt now s s') : WeakInv s' := by
  obtain ⟨hT0, hA0⟩ := hI
  cases hstep with
  | step_getBox sender userAddress h =>
    subst h
    exact ⟨hT0, hA0⟩
  | step_storeBox sender userAddress i h =>
    subst h
    exact ⟨hT0, hA0⟩
  | step_init sender creator asset adminAddress minimumStake weeklyRewards rewardPeriod h =>
    obtain ⟨_, _, rfl⟩ := initContract_inv s _ sender creator now asset adminAddress
      minimumStake weeklyRewards rewardPeriod h
    exact ⟨fun _ => rfl, fun _ => rfl⟩
  | step_optIn sender creator h =>
    obtain rfl := optIn_inv s _ sender creator h
    exact ⟨hT0, hA0⟩
  | step_stake sender appAddr groupSize x h =>
    obtain ⟨hAsset, _, _, hA, _, _, _, _, _, _, _, _, _, _, _, _, _, _⟩ :=
      stake_inv s s' sender now appAddr groupSize x h
    constructor <;>
      exact fun h0 => absurd (by rw [← hA]; exact h0) hAsset
  | step_withdraw sender amount h =>
    obtain ⟨_, _, hPos, _, hLeT, hA, _, _, _, _, _, _, _, _, _, _, _, _, _, _⟩ :=
      withdraw_inv s s' sender amount h
    constructor <;>
      (intro h0
       exfalso
       have hs0 : s.asset = 0 := by rw [← hA]; exact h0
       have := hT0 hs0
       omega)
  | step_addRewards sender appAddr groupSize x h =>
    obtain rfl := addRewards_inv s _ sender appAddr groupSize x h
    exact ⟨hT0, hA0⟩
  | step_trigger sender h =>
    have hU := trigger_inv s s' sender now h
    obtain ⟨hA, _, hT, _, _, _, _, _, _, _, hZ⟩ := updateRewards_frame s s' now hU
    constructor
    · intro h0
      rw [hA] at h0
      rw [hT]
      exact hT0 h0
    · intro h0
      rw [hA] at h0
      rw [hZ (hT0 h0)]
      exact hA0 h0
  | step_updateAdmin sender newAdminAddress h =>
    obtain rfl := updateAdmin_inv s _ sender newAdminAddress h
    exact ⟨hT0, hA0⟩
  | step_emergency sender amount h =>
    obtain ⟨_, rfl⟩ := emergency_inv s _ sender amount h
    exact ⟨hT0, hA0⟩
  | step_deleteBox sender userAddress h =>
    obtain ⟨_, rfl⟩ := deleteBox_inv s _ sender userAddress h
    exact ⟨hT0, hA0⟩
  | step_updateWeekly sender newWeeklyRewards h =>
    obtain ⟨s1, hU, rfl⟩ := updateWeekly_inv s _ sender now newWeeklyRewards h
    obtain ⟨hA, _, hT, _, _, _, _, _, _, _, hZ⟩ := updateRewards_frame s s1 now hU
    constructor
    · intro h0
      have hs0 : s.asset = 0 := by rw [← hA]; exact h0
      show s1.totalStaked = 0
      rw [hT]
      exact hT0 hs0
    · intro h0
      have hs0 : s.asset = 0 := by rw [← hA]; exact h0
      show s1.accumulatedRewardsPerShare = 0
      rw [hZ (hT0 hs0)]
      exact hA0 hs0
  | step_updatePeriod sender newRewardPeriod h =>
    obtain ⟨s1, hU, rfl⟩ := updatePeriod_inv s _ sender now newRewardPeriod h
    obtain ⟨hA, _, hT, _, _, _, _, _, _, _, hZ⟩ := updateRewards_frame s s1 now hU
    constructor
    · intro h0
      have hs0 : s.asset = 0 := by rw [← hA]; exact h0
      show s1.totalStaked = 0
      rw [hT]
      exact hT0 hs0
    · intro h0
      have hs0 : s.asset = 0 := by rw [← hA]; exact h0
      show s1.accumulatedRewardsPerShare = 0
      rw [hZ (hT0 hs0)]
      exact hA0 hs0

/-- Every reachable state satisfies `WeakInv`. -/
theorem weakInv_reachable (s : ContractState) (h : Reachable s) : WeakInv s := by
  induction h with
  | init => exact initialState_weakInv
  | step _ hstep ih => exact weakInv_step _ _ _ ih hstep

namespace Legacy

/-- Box contents of the legacy APR contract (unnamed part_001): three fields
only. -/
structure UserStakeInfo where
  stakedAmount : Nat
  lastStakeTime : Nat
  totalRewardsEarned : Nat
  deriving DecidableEq, Repr

/-- Global state of the legacy APR contract: APR in basis points and a
distribution clock instead of a pool and an accumulator. -/
structure ContractState where
  assetId : Nat
  adminAddress : Nat
  totalStaked : Nat
  aprBasisPoints : Nat
  lastDistributionTime : Nat
  distributionPeriodSeconds : Nat
  minimumStake : Nat
  stakers : List (Nat × UserStakeInfo)
  deriving DecidableEq, Repr

def lookupStaker : List (Nat × UserStakeInfo) → Nat → Option UserStakeInfo
  | [], _ => none
  | (k, v) :: t, u => if k = u then some v else lookupStaker t u

def setStaker : List (Nat × UserStakeInfo) → Nat → UserStakeInfo → List (Nat × UserStakeInfo)
  | [], u, v => [(u, v)]
  | (k, w) :: t, u, v => if k = u then (u, v) :: t else (k, w) :: setStaker t u v

/-- Legacy `getUserStakeInfo`: stored box or the all-zero record. -/
def getUserStakeInfo (s : ContractState) (userAddress : Nat) : UserStakeInfo :=
  match lookupStaker s.stakers userAddress with
  | some i => i
  | none => ⟨0, 0, 0⟩

/-- Legacy `storeUserStakeInfo` (part_001 lines 88-93): writes only when the
box already exists — a silent no-op for a missing box. -/
def storeUserStakeInfo (s : ContractState) (userAddress : Nat) (i : UserStakeInfo) :
    ContractState :=
  match lookupStaker s.stakers userAddress with
  | some _ => { s with stakers := setStaker s.stakers userAddress i }
  | none => s

/-- Legacy `calculateUserRewards` (part_001 lines 269-306): 0 without a
global or personal stake or when staked less than 24h before the last
distribution; otherwise `stakedAmount * (((apr * 100) / 365) * 10000) /
10000` — an APR-based daily amount, not an accumulator delta. -/
def calculateUserRewards (s : ContractState) (userAddress : Nat) :
    Except ContractError Nat :=
  if s.totalStaked = 0 then .ok 0
  else
    let stakeInfo := getUserStakeInfo s userAddress
    if stakeInfo.stakedAmount = 0 then .ok 0
    else
      match addU stakeInfo.lastStakeTime 86400 with
      | .error e => .error e
      | .ok cutoff =>
        if s.lastDistributionTime < cutoff then .ok 0
        else
          match mulU s.aprBasisPoints 100 with
          | .error e => .error e
          | .ok m1 =>
            match divU m1 365 with
            | .error e => .error e
            | .ok d1 =>
              match mulU d1 10000 with
              | .error e => .error e
              | .ok dailyRate =>
                match mulU stakeInfo.stakedAmount dailyRate with
                | .error e => .error e
                | .ok m2 =>
                  match divU m2 10000 with
                  | .error e => .error e
                  | .ok reward => .ok reward

/-- Legacy `claimRewards` (part_001 lines 313-335): requires a stake and a
positive APR reward, then auto-compounds the reward into `stakedAmount`,
`totalRewardsEarned` and `totalStaked`.  There is no pool, no
`InsufficientPool` check and no reward debt. -/
def claimRewards (s : ContractState) (sender : Nat) : Except ContractError ContractState :=
  let stakeInfo := getUserStakeInfo s sender
  if stakeInfo.stakedAmount = 0 then .error .noStake
  else
    match calculateUserRewards s sender with
    | .error e => .error e
    | .ok reward =>
      if reward = 0 then .error .noRewardsToClaim
      else
        match addU stakeInfo.stakedAmount reward with
        | .error e => .error e
        | .ok newStaked =>
          match addU stakeInfo.totalRewardsEarned reward with
          | .error e => .error e
          | .ok newEarned =>
            match addU s.totalStaked reward with
            | .error e => .error e
            | .ok newTotal =>
              let s1 := storeUserStakeInfo s sender
                { stakeInfo with stakedAmount := newStaked, totalRewardsEarned := newEarned }
              .ok { s1 with totalStaked := newTotal }

end Legacy

/-- A legacy-contract state: APR 500 bp, one staker of 5000 staked since
time 0, last distribution at 200000 (more than 24h after the stake). -/
def legacyState : Legacy.ContractState :=
  { assetId := 1, adminAddress := 2, totalStaked := 5000, aprBasisPoints := 500,
    lastDistributionTime := 200000, distributionPeriodSeconds := 86400,
    minimumStake := 10, stakers := [(5, ⟨5000, 0, 0⟩)] }

/-- `legacyState` after account 5 claims: the APR reward
`5000 * (((500 * 100) / 365) * 10000) / 10000 = 680000` is compounded. -/
def legacyStateClaimed : Legacy.ContractState :=
  { legacyState with
    totalStaked := 685000
    stakers := [(5, ⟨685000, 0, 680000⟩)] }

/-- State after account 5 stakes another 50 at time 200 in `stateCupd`: the
1000 units pending there are wiped (reward debt jumps to 100 * 20 = 2000)
without being paid. -/
def stateE : ContractState :=
  { stateCupd with
    totalStaked := 100
    stakers := [(5, ⟨100, 0, 200, 0, 2000⟩)] }

/-- The spec's Scenario 2 state: weekly budget 100,000,000,000, period
604,800 s, total staked 10,000, pool pre-funded with exactly the budget. -/
def scenario2State : ContractState :=
  { asset := 1, adminAddress := 2, totalStaked := 10000, lastRewardTime := 0,
    minimumStake := 10, rewardPool := 100000000000, accumulatedRewardsPerShare := 0,
    weeklyRewards := 100000000000, rewardPeriod := 604800,
    stakers := [(5, ⟨10000, 0, 0, 0, 0⟩)] }

/-- The spec's Scenario 5 state: weekly budget 100,000,000,000 and total
staked 1,000,000,000,000. -/
def apyState : ContractState :=
  { asset := 1, adminAddress := 2, totalStaked := 1000000000000, lastRewardTime := 0,
    minimumStake := 10, rewardPool := 0, accumulatedRewardsPerShare := 0,
    weeklyRewards := 100000000000, rewardPeriod := 604800, stakers := [] }

/-- C1: `updateRewards` is a no-op when `now < lastRewardTime + rewardPeriod`
or `totalStaked = 0`; otherwise, with `periodsElapsed = (now - lastRewardTime)
/ rewardPeriod` (truncating) and `emitted = weeklyRewards * periodsElapsed`,
it adds `emitted / totalStaked` (truncating) to `accumulatedRewardsPerShare`,
sets `lastRewardTime := lastRewardTime + periodsElapsed * rewardPeriod` and
decreases `rewardPool` by `emitted`; in particular with weekly rewards
100,000,000,000, period 604,800 and 10,000 staked, one full period adds
10,000,000 to the accumulator and drains 100,000,000,000 from the pool. -/
theorem updateRewards_accumulator_spec :
    (∀ (s : ContractState) (now : Nat),
      s.lastRewardTime + s.rewardPeriod < u64Bound →
      now < s.lastRewardTime + s.rewardPeriod →
      updateRewards s now = .ok s) ∧
    (∀ (s : ContractState) (now : Nat),
      s.lastRewardTime + s.rewardPeriod < u64Bound →
      s.totalStaked = 0 →
      updateRewards s now = .ok s) ∧
    (∀ (s : ContractState) (now : Nat),
      s.lastRewardTime + s.rewardPeriod < u64Bound →
      s.lastRewardTime + s.rewardPeriod ≤ now →
      now < u64Bound →
      0 < s.totalStaked →
      0 < s.rewardPeriod →
      s.weeklyRewards * ((now - s.lastRewardTime) / s.rewardPeriod) < u64Bound →
      s.accumulatedRewardsPerShare +
        s.weeklyRewards * ((now - s.lastRewardTime) / s.rewardPeriod) / s.totalStaked <
        u64Bound →
      s.weeklyRewards * ((now - s.lastRewardTime) / s.rewardPeriod) ≤ s.rewardPool →
      updateRewards s now = .ok { s with
        accumulatedRewardsPerShare := s.accumulatedRewardsPerShare +
          s.weeklyRewards * ((now - s.lastRewardTime) / s.rewardPeriod) / s.totalStaked
        lastRewardTime := s.lastRewardTime +
          (now - s.lastRewardTime) / s.rewardPeriod * s.rewardPeriod
        rewardPool := s.rewardPool -
          s.weeklyRewards * ((now - s.lastRewardTime) / s.rewardPeriod) }) ∧
    updateRewards scenario2State 604800 = .ok { scenario2State with
      accumulatedRewardsPerShare := 10000000
      lastRewardTime := 604800
      rewardPool := 0 } :=
  ⟨updateRewards_noop_early, updateRewards_noop_zero, updateRewards_advance, by decide⟩

/-- C2: contrary to the claim (and to the methods' own doc comments), `stake`
and `withdraw` never run `updateRewards`.  Concretely: in `stateC` at time
100 a full reward period has elapsed and `updateRewards` would advance the
accumulator to 20, `lastRewardTime` to 100 and drain 1000 from the pool, yet
a successful `stake` (to `stateD`) and a successful `withdraw` (to `stateW`)
both leave `accumulatedRewardsPerShare`, `lastRewardTime` and `rewardPool`
exactly as they were. -/
theorem stake_withdraw_skip_updateRewards :
    stake stateC 5 100 4 2 xferStake50 = .ok stateD ∧
    stateD.accumulatedRewardsPerShare = stateC.accumulatedRewardsPerShare ∧
    stateD.lastRewardTime = stateC.lastRewardTime ∧
    stateD.rewardPool = stateC.rewardPool ∧
    withdraw stateC 5 25 = .ok stateW ∧
    stateW.accumulatedRewardsPerShare = stateC.accumulatedRewardsPerShare ∧
    stateW.lastRewardTime = stateC.lastRewardTime ∧
    stateW.rewardPool = stateC.rewardPool ∧
    updateRewards stateC 100 = .ok stateCupd ∧
    stateCupd.accumulatedRewardsPerShare = 20 ∧
    stateCupd.lastRewardTime = 100 ∧
    stateCupd.rewardPool = 99000 ∧
    stateC.accumulatedRewardsPerShare = 0 ∧
    stateC.lastRewardTime = 0 ∧
    stateC.rewardPool = 100000 := by
  decide

/-- C3 counterexample: a reachable state (`stateB`: one staker of 50, pool
never funded) in which the accumulator-advance condition holds at time 100
yet the pool (0) is smaller than the emission (1000), so the claimed
"rewardPool is at least emitted whenever updateRewards advances" is false;
the unguarded subtraction makes `updateRewards` abort. -/
theorem rewardPool_underflow_reachable :
    Reachable stateB ∧
    stateB.lastRewardTime + stateB.rewardPeriod ≤ 100 ∧
    0 < stateB.totalStaked ∧
    stateB.rewardPool <
      stateB.weeklyRewards * ((100 - stateB.lastRewardTime) / stateB.rewardPeriod) ∧
    updateRewards stateB 100 = .error .arithError :=
  ⟨reachable_stateB, by decide, by decide, by decide, by decide⟩

/-- C3 (amended): `rewardPool` is a `uint64`, so it is never negative, and
the unguarded `rewardPool -= emitted` is a hard transaction failure — never
a silent wraparound — whenever the emission exceeds the pool: under the
advance conditions with `emitted > rewardPool`, `updateRewards` aborts with
an arithmetic error. -/
theorem updateRewards_pool_underflow_hard_failure (s : ContractState) (now : Nat)
    (hfit : s.lastRewardTime + s.rewardPeriod < u64Bound)
    (hnow : s.lastRewardTime + s.rewardPeriod ≤ now)
    (hnow64 : now < u64Bound)
    (htot : 0 < s.totalStaked)
    (hper : 0 < s.rewardPeriod)
    (hemit : s.weeklyRewards * ((now - s.lastRewardTime) / s.rewardPeriod) < u64Bound)
    (hacc : s.accumulatedRewardsPerShare +
      s.weeklyRewards * ((now - s.lastRewardTime) / s.rewardPeriod) / s.totalStaked <
      u64Bound)
    (hpool : s.rewardPool <
      s.weeklyRewards * ((now - s.lastRewardTime) / s.rewardPeriod)) :
    updateRewards s now = .error .arithError := by
  have hlast : s.lastRewardTime ≤ now := by omega
  have hdm : (now - s.lastRewardTime) / s.rewardPeriod * s.rewardPeriod ≤
      now - s.lastRewardTime := Nat.div_mul_le_self _ _
  have hmulfit : (now - s.lastRewardTime) / s.rewardPeriod * s.rewardPeriod < u64Bound := by
    omega
  have haddfit : s.lastRewardTime +
      (now - s.lastRewardTime) / s.rewardPeriod * s.rewardPeriod < u64Bound := by
    omega
  simp only [updateRewards, addU_ok hfit]
  rw [if_pos ⟨hnow, htot⟩]
  simp only [subU_ok hlast]
  simp only [divU_ok (Nat.pos_iff_ne_zero.1 hper)]
  simp only [mulU_ok hemit]
  simp only [divU_ok (Nat.pos_iff_ne_zero.1 htot)]
  simp only [addU_ok hacc]
  simp only [mulU_ok hmulfit]
  simp only [addU_ok haddfit]
  simp only [subU_err hpool]

theorem updateRewards_pool_underflow_hard_failure_witness :
    updateRewards stateB 100 = .error .arithError :=
  updateRewards_pool_underflow_hard_failure stateB 100 (by decide) (by decide) (by decide)
    (by decide) (by decide) (by decide) (by decide) (by decide)

/-- C4: conservation fails in the real program.  The intended mutators do
preserve `totalStaked = Σ stakedAmount` (`stake_conservation_delta`,
`withdraw_conservation_delta`, `deleteBox_conservation`), but
`storeUserStakeInfo` is public and undecorated, hence ABI-routable, and
writes an arbitrary box without touching `totalStaked`: from the reachable
initialized `stateA` one such call reaches `stateV` with `totalStaked = 0`
against a stored sum of 7; and from `stateT` (a genuine staker of 50 plus a
planted record of 50) the planter successfully withdraws 50, leaving
`totalStaked = 0` while the genuine staker's 50 is still recorded. -/
theorem conservation_violated_by_public_store :
    Reachable stateV ∧ stateV.totalStaked = 0 ∧ sumStakes stateV.stakers = 7 ∧
    Reachable stateT ∧ withdraw stateT 9 50 = .ok stateT2 ∧
    stateT2.totalStaked = 0 ∧ sumStakes stateT2.stakers = 50 :=
  ⟨reachable_stateV, by decide, by decide, reachable_stateT, by decide, by decide, by decide⟩

/-- C5: the accumulator contract has no claim operation at all, although
rewards accrue as pending.  In the reachable state `stateCupd` account 5 has
pending rewards 1000 with a pool of 99000 able to pay them, yet its
`totalRewardsEarned` is 0 and the contract offers no method that pays or
compounds the pending amount (re-triggering distribution changes nothing and
touches no box).  The only claim implementation in the source is the legacy
variant's auto-compounding `claimRewards`, which pays an APR-based amount
(680000 here) with no pool, no `InsufficientPool` check and no reward debt. -/
theorem pending_rewards_without_claim_path :
    Reachable stateCupd ∧
    calculatePendingRewards stateCupd 5 = .ok 1000 ∧
    1000 ≤ stateCupd.rewardPool ∧
    (getUserStakeInfo stateCupd 5).totalRewardsEarned = 0 ∧
    triggerRewardDistribution stateCupd 2 100 = .ok stateCupd ∧
    Legacy.claimRewards legacyState 5 = .ok legacyStateClaimed ∧
    legacyStateClaimed.totalStaked = legacyState.totalStaked + 680000 ∧
    (Legacy.getUserStakeInfo legacyStateClaimed 5).totalRewardsEarned = 680000 :=
  ⟨reachable_stateCupd, by decide, by decide, by decide, by decide, by decide, by decide,
    by decide⟩

/-- C6: immediately after any successful `stake`, the caller's pending reward
is exactly 0 — `stake` re-checkpoints `rewardDebt` to the full new
`stakedAmount * accumulatedRewardsPerShare` without paying or compounding
what was pending, and leaves `totalRewardsEarned` untouched, so rewards
pending at stake time are forfeited. -/
theorem stake_resets_pending_to_zero (s s' : ContractState)
    (sender now appAddr groupSize : Nat) (x : XferTxn)
    (h : stake s sender now appAddr groupSize x = .ok s') :
    calculatePendingRewards s' sender = .ok 0 ∧
    (getUserStakeInfo s' sender).totalRewardsEarned =
      (getUserStakeInfo s sender).totalRewardsEarned := by
  obtain ⟨hAsset, hAmt, hMinNew, hA, hAdm, hLast, hMS, hPool, hAccEq, hW, hP, hTot,
    i2, hStk, hi2s, hi2d, hi2t, hi2b⟩ := stake_inv s s' sender now appAddr groupSize x h
  have hget : getUserStakeInfo s' sender = i2 := by
    unfold getUserStakeInfo
    rw [hStk, lookup_set_self]
  constructor
  · simp only [calculatePendingRewards]
    rw [hget]
    have hnz : ¬ i2.stakedAmount = 0 := by
      rw [hi2s]
      omega
    rw [if_neg hnz, hAccEq]
    simp only [mulU_ok hi2b]
    rw [hi2d]
    rw [if_neg (lt_irrefl _)]
  · rw [hget, hi2t]

theorem stake_resets_pending_to_zero_witness :
    calculatePendingRewards stateE 5 = .ok 0 ∧
    (getUserStakeInfo stateE 5).totalRewardsEarned =
      (getUserStakeInfo stateCupd 5).totalRewardsEarned :=
  stake_resets_pending_to_zero stateCupd stateE 5 200 4 2 xferStake50 (by decide)

/-- C7: `withdraw` fails with `NoStake` on an absent or zero record, with
`ExceedsStake` when the amount exceeds the stake, and with
`BelowMinimumRemaining` when a positive amount leaves a positive remainder
below the minimum; a failed call yields only an error, never a post-state —
the transaction aborts with no mutation. -/
theorem withdraw_failure_cases :
    (∀ (s : ContractState) (sender amount : Nat),
      (getUserStakeInfo s sender).stakedAmount = 0 →
      withdraw s sender amount = .error .noStake) ∧
    (∀ (s : ContractState) (sender amount : Nat),
      (getUserStakeInfo s sender).stakedAmount ≠ 0 →
      (getUserStakeInfo s sender).stakedAmount < amount →
      withdraw s sender amount = .error .exceedsStake) ∧
    (∀ (s : ContractState) (sender amount : Nat),
      0 < amount →
      0 < (getUserStakeInfo s sender).stakedAmount - amount →
      (getUserStakeInfo s sender).stakedAmount - amount < s.minimumStake →
      withdraw s sender amount = .error .belowMinimumRemaining) ∧
    (∀ (s s' : ContractState) (sender amount : Nat) (e : ContractError),
      withdraw s sender amount = .error e → withdraw s sender amount ≠ .ok s') := by
  refine ⟨?_, ?_, ?_, ?_⟩
  · intro s sender amount h0
    simp only [withdraw]
    rw [if_pos h0]
  · intro s sender amount h0 hlt
    simp only [withdraw]
    rw [if_neg h0, if_pos hlt]
  · intro s sender amount hpos hrem hmin
    simp only [withdraw]
    rw [if_neg (by omega : ¬ (getUserStakeInfo s sender).stakedAmount = 0)]
    rw [if_neg (by omega : ¬ (getUserStakeInfo s sender).stakedAmount < amount)]
    rw [if_neg (by omega : ¬ amount = 0)]
    rw [if_pos ⟨by omega, hmin⟩]
  · intro s s' sender amount e he
    rw [he]
    exact fun hc => Except.noConfusion hc

/-- C8: the minimum-stake invariant fails in the real program.  The routable
public `storeUserStakeInfo` can plant a record with
`0 < stakedAmount < minimumStake` (here 5 with minimum 10, reached from the
initialized `stateA`), and a subsequent successful top-up `stake` of 1 by
the same account — which checks the minimum only for a zero record — leaves
the record at 6, still below the minimum. -/
theorem minimum_stake_violated_by_public_store :
    Reachable stateM ∧
    (getUserStakeInfo stateM 9).stakedAmount = 5 ∧ stateM.minimumStake = 10 ∧
    stake stateM 9 0 4 2 xferStake1 = .ok stateM2 ∧
    (getUserStakeInfo stateM2 9).stakedAmount = 6 ∧ stateM2.minimumStake = 10 :=
  ⟨reachable_stateM, by decide, by decide, by decide, by decide, by decide⟩

/-- C9: monotonicity — from any reachable state, any successful operation
(every routable method, the undecorated public box helpers included) at a
time `now` not earlier than `lastRewardTime` never decreases
`accumulatedRewardsPerShare` or `lastRewardTime`. -/
theorem accumulator_monotone (s s' : ContractState) (now : Nat) (hr : Reachable s)
    (hstep : StepAt now s s') (hclock : s.lastRewardTime ≤ now) :
    s.accumulatedRewardsPerShare ≤ s'.accumulatedRewardsPerShare ∧
    s.lastRewardTime ≤ s'.lastRewardTime := by
  obtain ⟨hT0, hAcc0⟩ := weakInv_reachable s hr
  cases hstep with
  | step_getBox sender userAddress h =>
    subst h
    exact ⟨le_refl _, le_refl _⟩
  | step_storeBox sender userAddress i h =>
    subst h
    exact ⟨le_refl _, le_refl _⟩
  | step_init sender creator asset adminAddress minimumStake weeklyRewards rewardPeriod h =>
    obtain ⟨hA0, _, rfl⟩ := initContract_inv s _ sender creator now asset adminAddress
      minimumStake weeklyRewards rewardPeriod h
    constructor
    · have := hAcc0 hA0
      show s.accumulatedRewardsPerShare ≤ 0
      omega
    · exact hclock
  | step_optIn sender creator h =>
    obtain rfl := optIn_inv s _ sender creator h
    exact ⟨le_refl _, le_refl _⟩
  | step_stake sender appAddr groupSize x h =>
    obtain ⟨_, _, _, hA, hAdm, hLast, hMS, hPool, hAccEq, hW, hP, hTot, _, _, _, _, _, _⟩ :=
      stake_inv s s' sender now appAddr groupSize x h
    rw [hAccEq, hLast]
    exact ⟨le_refl _, le_refl _⟩
  | step_withdraw sender amount h =>
    obtain ⟨_, _, _, _, _, hA, hAdm, hLast, hMS, hPool, hAccEq, hW, hP, hTot,
      _, _, _, _, _, _⟩ := withdraw_inv s s' sender amount h
    rw [hAccEq, hLast]
    exact ⟨le_refl _, le_refl _⟩
  | step_addRewards sender appAddr groupSize x h =>
    obtain rfl := addRewards_inv s _ sender appAddr groupSize x h
    exact ⟨le_refl _, le_refl _⟩
  | step_trigger sender h =>
    have hU := trigger_inv s s' sender now h
    obtain ⟨_, _, _, _, _, _, _, hAccLe, hLastLe, _, _⟩ := updateRewards_frame s s' now hU
    exact ⟨hAccLe, hLastLe⟩
  | step_updateAdmin sender newAdminAddress h =>
    obtain rfl := updateAdmin_inv s _ sender newAdminAddress h
    exact ⟨le_refl _, le_refl _⟩
  | step_emergency sender amount h =>
    obtain ⟨_, rfl⟩ := emergency_inv s _ sender amount h
    exact ⟨le_refl _, le_refl _⟩
  | step_deleteBox sender userAddress h =>
    obtain ⟨_, rfl⟩ := deleteBox_inv s _ sender userAddress h
    exact ⟨le_refl _, le_refl _⟩
  | step_updateWeekly sender newWeeklyRewards h =>
    obtain ⟨s1, hU, rfl⟩ := updateWeekly_inv s _ sender now newWeeklyRewards h
    obtain ⟨_, _, _, _, _, _, _, hAccLe, hLastLe, _, _⟩ := updateRewards_frame s s1 now hU
    exact ⟨hAccLe, hLastLe⟩
  | step_updatePeriod sender newRewardPeriod h =>
    obtain ⟨s1, hU, rfl⟩ := updatePeriod_inv s _ sender now newRewardPeriod h
    obtain ⟨_, _, _, _, _, _, _, hAccLe, hLastLe, _, _⟩ := updateRewards_frame s s1 now hU
    exact ⟨hAccLe, hLastLe⟩

theorem accumulator_monotone_witness :
    stateC.accumulatedRewardsPerShare ≤ stateCupd.accumulatedRewardsPerShare ∧
    stateC.lastRewardTime ≤ stateCupd.lastRewardTime :=
  accumulator_monotone stateC stateCupd 100 reachable_stateC
    (@StepAt.step_trigger 100 stateC stateCupd 2 (by decide)) (by decide)

/-- C10 counterexample: at weekly rewards 100,000,000,000 and total staked
1,000,000,000,000 the code returns 520 basis points, while the claimed
formula `(52 * weeklyRewards * 10000) / totalStaked` evaluates to 52,000 —
the scale factor in the code is 100, not 10000. -/
theorem apy_formula_counterexample :
    getCurrentAPY apyState = .ok 520 ∧
    52 * apyState.weeklyRewards * 10000 / apyState.totalStaked = 52000 ∧
    (520 : Nat) ≠ 52000 :=
  ⟨by decide, by decide, by decide⟩

/-- C10 (amended): `getCurrentAPY` returns 0 when nothing is staked and
otherwise `(52 * weeklyRewards * 100) / totalStaked` basis points under
truncating integer arithmetic; at weekly rewards 100,000,000,000 and total
staked 1,000,000,000,000 it returns 520. -/
theorem getCurrentAPY_spec :
    (∀ s : ContractState, s.totalStaked = 0 → getCurrentAPY s = .ok 0) ∧
    (∀ s : ContractState, s.totalStaked ≠ 0 →
      52 * s.weeklyRewards < u64Bound →
      52 * s.weeklyRewards * 100 < u64Bound →
      getCurrentAPY s = .ok (52 * s.weeklyRewards * 100 / s.totalStaked)) ∧
    getCurrentAPY apyState = .ok 520 := by
  refine ⟨?_, ?_, by decide⟩
  · intro s h0
    simp only [getCurrentAPY]
    rw [if_pos h0]
  · intro s h0 h1 h2
    simp only [getCurrentAPY]
    rw [if_neg h0]
    simp only [mulU_ok h1, mulU_ok h2, divU_ok h0]
